import Mathlib

/-!
The OAuth connect route of the client (`connect/oauth/route.js`).

A shallow embedding of `src/client/app/api/settings/integrations/connect/oauth/route.js`:
the module constant `appServerUrl`, the handler `POST` that is passed to `withAuth`, and the
platform operations the handler calls (`JSON.stringify`, property access, `||`, `new Error`,
`NextResponse.json`).

Conventions of the embedding.

* A JavaScript value obtained from `JSON.parse` is a `Json` tree.  An object is the list of its
  members in property order; values built by JavaScript have pairwise distinct keys.  Numbers
  are the safe integers (magnitude below `2^53`), which are exact and are written as plain
  decimal numerals; fractional numbers, larger numbers and the special doubles are outside
  the model.  Strings are sequences of Unicode scalar values.
* The platform calls whose result the handler only awaits (`request.json()`, `fetch`,
  `response.json()`) are inputs: each one either resolves to a value or rejects with an error
  that carries a message.
* An invocation yields an `Outcome`: how the handler completed (a response, or an exception
  that escaped), the outbound requests it handed to `fetch`, and what it wrote with
  `console.error`.
-/

namespace OAuthRoute

/-! ## Values -/

/-- The bound `2^53` of the safe integers. -/
def safeLimit : Nat := 9007199254740992

/-- A value produced by `JSON.parse`. -/
inductive Json where
  | null : Json
  | bool (b : Bool) : Json
  | num (n : Int) (safe : n.natAbs < safeLimit) : Json
  | str (s : String) : Json
  | arr (xs : List Json) : Json
  | obj (kvs : List (String × Json)) : Json

/-- A thrown JavaScript error, as far as the handler looks at it: `error.message`. -/
structure JsError where
  message : String
deriving DecidableEq

/-- The outcome of an awaited promise or of an operation that may throw. -/
abbrev Completion (α : Type) := Except JsError α

/-- Message of the `TypeError` raised when a property of `null` is read (V8 wording). -/
def nullReadMessage (key : String) : String :=
  "Cannot read properties of null (reading '" ++ key ++ "')"

/-- Message of the `TypeError` raised when an object has no usable `toString`/`valueOf`
(V8 wording). -/
def toPrimitiveMessage : String := "Cannot convert object to primitive value"

/-- The fallback text of the handler (route.js line 24). -/
def fallbackMessage : String := "Failed to connect OAuth integration"

/-- The tag the handler logs with (route.js line 30). -/
def logTag : String := "API Error in /settings/integrations/connect/oauth:"

/-! ## Decimal digits -/

/-- The decimal digit character of `d < 10`. -/
def digitChar (d : Nat) : Char := Char.ofNat (48 + d)

/-- Most significant digits first; `fuel` bounds the number of digits produced. -/
def decimalCore : Nat → Nat → List Char → List Char
  | 0, _, acc => acc
  | fuel + 1, n, acc =>
    if n / 10 = 0 then digitChar (n % 10) :: acc
    else decimalCore fuel (n / 10) (digitChar (n % 10) :: acc)

/-- The decimal digits of a natural number, without leading zeros (`0` is `"0"`). -/
def decimal (n : Nat) : List Char := decimalCore (n + 1) n []

/-- `Number::toString` on a safe integer. -/
def numberChars (n : Int) : List Char :=
  if n < 0 then '-' :: decimal n.natAbs else decimal n.natAbs

/-! ## Property access, truthiness, string conversion -/

/-- The own property `key` of an object given by its member list (a later member with the same
key overrides an earlier one, as when the members are assigned in order). -/
def getOwn : List (String × Json) → String → Option Json
  | [], _ => none
  | (k, v) :: rest, key =>
    match getOwn rest key with
    | some w => some w
    | none => if k = key then some v else none

/-- The expression `data.key` for a value `data` that came from `JSON.parse` and a key that no
prototype defines (such as `detail`): `none` is `undefined`; reading a property of `null`
throws. -/
def getProp (data : Json) (key : String) : Completion (Option Json) :=
  match data with
  | .null => .error ⟨nullReadMessage key⟩
  | .obj kvs => .ok (getOwn kvs key)
  | _ => .ok none

/-- The abstract operation `ToBoolean` on a `JSON.parse` value. -/
def truthy : Json → Bool
  | .null => false
  | .bool b => b
  | .num n _ => n != 0
  | .str s => s != ""
  | .arr _ => true
  | .obj _ => true

/-- The expression `x || fallback` where `x` is a `JSON.parse` value or `undefined`. -/
def orElse (x : Option Json) (fallback : Json) : Json :=
  match x with
  | none => fallback
  | some v => if truthy v then v else fallback

mutual
/-- The abstract operation `ToString` on a `JSON.parse` value.  An object converts through
`Object.prototype.toString` unless it has an own member `toString`, which is never callable,
and then the conversion throws; an array converts through `Array.prototype.join`. -/
def toStringJs : Json → Completion String
  | .null => .ok "null"
  | .bool true => .ok "true"
  | .bool false => .ok "false"
  | .num n _ => .ok (String.mk (numberChars n))
  | .str s => .ok s
  | .arr xs => joinJs xs
  | .obj kvs =>
    match getOwn kvs "toString" with
    | some _ => .error ⟨toPrimitiveMessage⟩
    | none => .ok "[object Object]"
/-- The method `Array.prototype.join` with the separator `","`: `null` elements give the empty
string. -/
def joinJs : List Json → Completion String
  | [] => .ok ""
  | [x] => elementJs x
  | x :: y :: rest =>
    match elementJs x with
    | .error e => .error e
    | .ok a =>
      match joinJs (y :: rest) with
      | .error e => .error e
      | .ok b => .ok (a ++ "," ++ b)
/-- One element inside `Array.prototype.join`. -/
def elementJs : Json → Completion String
  | .null => .ok ""
  | .bool true => .ok "true"
  | .bool false => .ok "false"
  | .num n _ => .ok (String.mk (numberChars n))
  | .str s => .ok s
  | .arr xs => joinJs xs
  | .obj kvs =>
    match getOwn kvs "toString" with
    | some _ => .error ⟨toPrimitiveMessage⟩
    | none => .ok "[object Object]"
end

/-- The expression `new Error(message)`: the message is converted with `ToString`, which may
itself throw. -/
def newError (message : Json) : Completion JsError :=
  match toStringJs message with
  | .error e => .error e
  | .ok s => .ok ⟨s⟩

/-! ## `JSON.stringify` -/

/-- A lowercase hexadecimal digit. -/
def hexDigit (d : Nat) : Char :=
  if d < 10 then Char.ofNat (48 + d) else Char.ofNat (87 + d)

/-- The escape of one character in `QuoteJSONString`: the quote, the backslash and the control
characters are escaped, every other character stands for itself. -/
def quoteChar (c : Char) : List Char :=
  if c = '"' then ['\\', '"']
  else if c = '\\' then ['\\', '\\']
  else if c = Char.ofNat 8 then ['\\', 'b']
  else if c = Char.ofNat 12 then ['\\', 'f']
  else if c = Char.ofNat 10 then ['\\', 'n']
  else if c = Char.ofNat 13 then ['\\', 'r']
  else if c = Char.ofNat 9 then ['\\', 't']
  else if c.toNat < 32 then
    ['\\', 'u', '0', '0', hexDigit (c.toNat / 16), hexDigit (c.toNat % 16)]
  else [c]

/-- The characters of a string, escaped, up to and including the closing quote. -/
def quoteTail : List Char → List Char
  | [] => ['"']
  | c :: cs => quoteChar c ++ quoteTail cs

/-- The abstract operation `QuoteJSONString`. -/
def quoteJSONString (s : String) : List Char := '"' :: quoteTail s.data

mutual
/-- The abstract operation `SerializeJSONProperty` without indentation, on a `JSON.parse`
value. -/
def serialize : Json → List Char
  | .null => ['n', 'u', 'l', 'l']
  | .bool true => ['t', 'r', 'u', 'e']
  | .bool false => ['f', 'a', 'l', 's', 'e']
  | .num n _ => numberChars n
  | .str s => quoteJSONString s
  | .arr [] => ['[', ']']
  | .arr (x :: xs) => '[' :: (serialize x ++ serializeElems xs)
  | .obj [] => ['{', '}']
  | .obj ((k, v) :: kvs) =>
    '{' :: (quoteJSONString k ++ ':' :: (serialize v ++ serializeMembers kvs))
/-- The remaining elements of an array, each after a comma, and the closing bracket. -/
def serializeElems : List Json → List Char
  | [] => [']']
  | x :: xs => ',' :: (serialize x ++ serializeElems xs)
/-- The remaining members of an object, each after a comma, and the closing brace. -/
def serializeMembers : List (String × Json) → List Char
  | [] => ['}']
  | (k, v) :: kvs =>
    ',' :: (quoteJSONString k ++ ':' :: (serialize v ++ serializeMembers kvs))
end

/-- The function `JSON.stringify` with one argument, on a `JSON.parse` value. -/
def JSON_stringify (v : Json) : String := String.mk (serialize v)

/-! ## `JSON.parse` -/

/-- JSON white space. -/
def isWs (c : Char) : Bool :=
  c = ' ' || c = Char.ofNat 9 || c = Char.ofNat 10 || c = Char.ofNat 13

/-- Drops leading white space. -/
def skipWs : List Char → List Char
  | [] => []
  | c :: cs => if isWs c then skipWs cs else c :: cs

/-- The value of a hexadecimal digit of either case. -/
def hexVal (c : Char) : Option Nat :=
  if 48 ≤ c.toNat ∧ c.toNat ≤ 57 then some (c.toNat - 48)
  else if 97 ≤ c.toNat ∧ c.toNat ≤ 102 then some (c.toNat - 87)
  else if 65 ≤ c.toNat ∧ c.toNat ≤ 70 then some (c.toNat - 55)
  else none

/-- The code unit written by four hexadecimal digits. -/
def hex4 (a b c d : Char) : Option Nat :=
  match hexVal a, hexVal b, hexVal c, hexVal d with
  | some w, some x, some y, some z => some (((w * 16 + x) * 16 + y) * 16 + z)
  | _, _, _, _ => none

/-- The character a single-letter escape stands for. -/
def unescape (e : Char) : Option Char :=
  if e = '"' then some '"'
  else if e = '\\' then some '\\'
  else if e = '/' then some '/'
  else if e = 'b' then some (Char.ofNat 8)
  else if e = 'f' then some (Char.ofNat 12)
  else if e = 'n' then some (Char.ofNat 10)
  else if e = 'r' then some (Char.ofNat 13)
  else if e = 't' then some (Char.ofNat 9)
  else none

/-- Puts a character in front of the string being read. -/
def consChar (c : Char) : Option (List Char × List Char) → Option (List Char × List Char)
  | none => none
  | some (s, rest) => some (c :: s, rest)

/-- Reads a string after its opening quote: the characters up to the closing quote and what
follows it.  A `\u` escape of a surrogate code unit has no value in this model. -/
def parseChars : List Char → Option (List Char × List Char)
  | [] => none
  | c :: cs =>
    if c = '"' then some ([], cs)
    else if c = '\\' then
      match cs with
      | [] => none
      | e :: cs1 =>
        if e = 'u' then
          match cs1 with
          | h1 :: h2 :: h3 :: h4 :: cs2 =>
            match hex4 h1 h2 h3 h4 with
            | none => none
            | some n =>
              if 0xD800 ≤ n ∧ n ≤ 0xDFFF then none
              else consChar (Char.ofNat n) (parseChars cs2)
          | _ => none
        else
          match unescape e with
          | none => none
          | some ch => consChar ch (parseChars cs1)
    else if c.toNat < 32 then none
    else consChar c (parseChars cs)

/-- Whether the character is a decimal digit. -/
def isDigit (c : Char) : Bool := 48 ≤ c.toNat && c.toNat ≤ 57

/-- The leading decimal digits and what follows them. -/
def takeDigits : List Char → List Char × List Char
  | [] => ([], [])
  | c :: cs =>
    if isDigit c then ((takeDigits cs).1.cons c, (takeDigits cs).2) else ([], c :: cs)

/-- The number written by a list of decimal digits, most significant first, after `acc`. -/
def digitsValue : Nat → List Char → Nat
  | acc, [] => acc
  | acc, c :: cs => digitsValue (acc * 10 + (c.toNat - 48)) cs

/-- Reads the digits of a number: no leading zero before another digit, and no fraction or
exponent (a number with one is outside the model and has no value here). -/
def parseNat (cs : List Char) : Option (Nat × List Char) :=
  match takeDigits cs with
  | ([], _) => none
  | (d :: ds, rest) =>
    if d = '0' ∧ ds ≠ [] then none
    else
      match rest with
      | [] => some (digitsValue 0 (d :: ds), rest)
      | c :: _ =>
        if c = '.' ∨ c = 'e' ∨ c = 'E' then none
        else some (digitsValue 0 (d :: ds), rest)

/-- Reads a number; `-0` has no value in this model. -/
def parseNumber (cs : List Char) : Option (Int × List Char) :=
  match cs with
  | [] => none
  | c :: rest =>
    if c = '-' then
      match parseNat rest with
      | none => none
      | some (n, r) => if n = 0 then none else some (-(n : Int), r)
    else
      match parseNat (c :: rest) with
      | none => none
      | some (n, r) => some ((n : Int), r)

/-- Reads a fixed word. -/
def expect : List Char → List Char → Option (List Char)
  | [], cs => some cs
  | _ :: _, [] => none
  | w :: ws, c :: cs => if w = c then expect ws cs else none

mutual
/-- Reads one JSON value and returns it with the rest of the text; `fuel` bounds the nesting
and the number of elements read.  A numeral outside the safe integers has no value in this
model. -/
def parseValue : Nat → List Char → Option (Json × List Char)
  | 0, _ => none
  | fuel + 1, cs =>
    match skipWs cs with
    | [] => none
    | c :: rest =>
      if c = 'n' then
        match expect ['u', 'l', 'l'] rest with
        | some r => some (.null, r)
        | none => none
      else if c = 't' then
        match expect ['r', 'u', 'e'] rest with
        | some r => some (.bool true, r)
        | none => none
      else if c = 'f' then
        match expect ['a', 'l', 's', 'e'] rest with
        | some r => some (.bool false, r)
        | none => none
      else if c = '"' then
        match parseChars rest with
        | some (s, r) => some (.str (String.mk s), r)
        | none => none
      else if c = '[' then
        match skipWs rest with
        | [] => none
        | d :: r =>
          if d = ']' then some (.arr [], r)
          else
            match parseElems fuel (d :: r) with
            | some (xs, r1) => some (.arr xs, r1)
            | none => none
      else if c = '{' then
        match skipWs rest with
        | [] => none
        | d :: r =>
          if d = '}' then some (.obj [], r)
          else
            match parseMembers fuel (d :: r) with
            | some (kvs, r1) => some (.obj kvs, r1)
            | none => none
      else
        match parseNumber (c :: rest) with
        | some (n, r) => if h : n.natAbs < safeLimit then some (.num n h, r) else none
        | none => none
/-- Reads the elements of a non-empty array up to and including the closing bracket. -/
def parseElems : Nat → List Char → Option (List Json × List Char)
  | 0, _ => none
  | fuel + 1, cs =>
    match parseValue fuel cs with
    | none => none
    | some (v, r) =>
      match skipWs r with
      | [] => none
      | d :: r1 =>
        if d = ',' then
          match parseElems fuel r1 with
          | some (vs, r2) => some (v :: vs, r2)
          | none => none
        else if d = ']' then some ([v], r1)
        else none
/-- Reads the members of a non-empty object up to and including the closing brace. -/
def parseMembers : Nat → List Char → Option (List (String × Json) × List Char)
  | 0, _ => none
  | fuel + 1, cs =>
    match skipWs cs with
    | [] => none
    | q :: r =>
      if q = '"' then
        match parseChars r with
        | none => none
        | some (k, r1) =>
          match skipWs r1 with
          | [] => none
          | colon :: r2 =>
            if colon = ':' then
              match parseValue fuel r2 with
              | none => none
              | some (v, r3) =>
                match skipWs r3 with
                | [] => none
                | d :: r4 =>
                  if d = ',' then
                    match parseMembers fuel r4 with
                    | some (kvs, r5) => some ((String.mk k, v) :: kvs, r5)
                    | none => none
                  else if d = '}' then some ([(String.mk k, v)], r4)
                  else none
            else none
      else none
end

/-- The function `JSON.parse` on a text: one value, with nothing but white space after it.
Object members are kept in text order; in a text written by `JSON.stringify` that is the
property order of the object `JSON.parse` builds. -/
def JSON_parse (text : String) : Option Json :=
  match parseValue (text.data.length + 1) text.data with
  | none => none
  | some (v, rest) =>
    match skipWs rest with
    | [] => some v
    | _ :: _ => none

/-! ## The process, the request and the backend -/

/-- The two entries of `process.env` the module reads, as they are when the module is loaded;
`none` is `undefined`. -/
structure ProcessEnv where
  INTERNAL_APP_SERVER_URL : Option String
  NEXT_PUBLIC_APP_SERVER_URL : Option String

/-- The module constant `appServerUrl` (route.js lines 5-7):
`process.env.INTERNAL_APP_SERVER_URL || process.env.NEXT_PUBLIC_APP_SERVER_URL`. -/
def appServerUrl (env : ProcessEnv) : Option String :=
  match env.INTERNAL_APP_SERVER_URL with
  | some s => if s ≠ "" then some s else env.NEXT_PUBLIC_APP_SERVER_URL
  | none => env.NEXT_PUBLIC_APP_SERVER_URL

/-- A substitution in a template literal: `undefined` is written out as a word. -/
def templateText : Option String → String
  | none => "undefined"
  | some s => s

/-- The inbound request as the handler uses it: its headers and the completion of
`request.json()`. -/
structure Request where
  headers : List (String × String)
  json : Completion Json

/-- The arguments of one call of `fetch`. -/
structure OutboundRequest where
  url : String
  method : String
  headers : List (String × String)
  body : String
deriving DecidableEq

/-- What a resolved `fetch` gives the handler: the status and the completion of
`response.json()`. -/
structure BackendResponse where
  status : Nat
  json : Completion Json

/-- The property `response.ok`: the status is in the range 200-299. -/
def BackendResponse.ok (r : BackendResponse) : Bool :=
  200 ≤ r.status && r.status ≤ 299

/-- The response sent to the client. -/
structure ClientResponse where
  status : Nat
  body : Json

/-- The call `NextResponse.json(data, { status })`; without a status it is 200. -/
def NextResponse_json (data : Json) (status : Option Nat) : ClientResponse :=
  { status := status.getD 200, body := data }

/-- Defines the property `key` of an object literal under construction: an existing property
keeps its place and takes the new value, a new one goes last. -/
def setProp : List (String × String) → String → String → List (String × String)
  | [], key, value => [(key, value)]
  | (k, v) :: rest, key, value =>
    if k = key then (k, value) :: rest else (k, v) :: setProp rest key value

/-- The spread `{ ...target, ...source }` onto the properties already defined. -/
def spread (target source : List (String × String)) : List (String × String) :=
  source.foldl (fun acc kv => setProp acc kv.1 kv.2) target

/-- The object literal `{ "Content-Type": "application/json", ...authHeader }`
(route.js line 16). -/
def outboundHeaders (authHeader : List (String × String)) : List (String × String) :=
  spread [("Content-Type", "application/json")] authHeader

/-- The arguments of the `fetch` call (route.js lines 12-19) for the parsed body `body`. -/
def outboundRequest (env : ProcessEnv) (authHeader : List (String × String)) (body : Json) :
    OutboundRequest :=
  { url := templateText (appServerUrl env) ++ "/integrations/connect/oauth"
    method := "POST"
    headers := outboundHeaders authHeader
    body := JSON_stringify body }

/-- One invocation: how it completed, the `fetch` calls it made, and its `console.error`
calls (the tag and the error). -/
structure Outcome where
  completion : Completion ClientResponse
  fetches : List OutboundRequest
  logged : List (String × JsError)

/-- The `try` block of the handler (route.js lines 11-27): the `fetch` calls made and the
completion of the block, which is abrupt when an awaited call rejects or something throws. -/
def tryBlock (env : ProcessEnv) (fetch : OutboundRequest → Completion BackendResponse)
    (request : Request) (authHeader : List (String × String)) :
    List OutboundRequest × Completion ClientResponse :=
  match request.json with
  | .error e => ([], .error e)
  | .ok body =>
    match fetch (outboundRequest env authHeader body) with
    | .error e => ([outboundRequest env authHeader body], .error e)
    | .ok response =>
      match response.json with
      | .error e => ([outboundRequest env authHeader body], .error e)
      | .ok data =>
        if !response.ok then
          match getProp data "detail" with
          | .error e => ([outboundRequest env authHeader body], .error e)
          | .ok detail =>
            match newError (orElse detail (.str fallbackMessage)) with
            | .error e => ([outboundRequest env authHeader body], .error e)
            | .ok thrown => ([outboundRequest env authHeader body], .error thrown)
        else ([outboundRequest env authHeader body], .ok (NextResponse_json data none))

/-- The function `POST(request, { authHeader })` that is passed to `withAuth`
(route.js lines 9-35): the `try` block, and the `catch` block that logs the error and answers
500 with its message. -/
def handler (env : ProcessEnv) (fetch : OutboundRequest → Completion BackendResponse)
    (request : Request) (authHeader : List (String × String)) : Outcome :=
  match tryBlock env fetch request authHeader with
  | (calls, .ok response) => { completion := .ok response, fetches := calls, logged := [] }
  | (calls, .error error) =>
    { completion := .ok (NextResponse_json (.obj [("error", .str error.message)]) (some 500))
      fetches := calls
      logged := [(logTag, error)] }

/-- Modelled from the spec: `withAuth` of `@lib/api-utils`, whose source is not part of the
route module.  The gate resolves the caller's credentials to the authorization header(s) or
fails; on success it invokes the wrapped handler with the request and the header(s), on
failure it answers with the unauthorized response and does not invoke the handler.  The
credential check itself is the parameter `authenticate`. -/
def withAuth (authenticate : Request → Except ClientResponse (List (String × String)))
    (wrapped : Request → List (String × String) → Outcome) (request : Request) : Outcome :=
  match authenticate request with
  | .error unauthorized => { completion := .ok unauthorized, fetches := [], logged := [] }
  | .ok authHeader => wrapped request authHeader

/-- The export `POST = withAuth(async function POST(request, { authHeader }) { ... })`
(route.js line 9). -/
def POST (env : ProcessEnv) (fetch : OutboundRequest → Completion BackendResponse)
    (authenticate : Request → Except ClientResponse (List (String × String)))
    (request : Request) : Outcome :=
  withAuth authenticate (handler env fetch) request

/-- What may follow a number in a text: no digit, fraction or exponent. -/
def Terminated (rest : List Char) : Prop :=
  ∀ c r, rest = c :: r → isDigit c = false ∧ c ≠ '.' ∧ c ≠ 'e' ∧ c ≠ 'E'

/-! ## Sample inputs -/

/-- A process environment with both addresses set. -/
def sampleEnv : ProcessEnv :=
  { INTERNAL_APP_SERVER_URL := some "http://server:5000"
    NEXT_PUBLIC_APP_SERVER_URL := some "https://public.example" }

/-- A connection request body. -/
def sampleBody : Json :=
  .obj [("service_name", .str "gdrive"), ("code", .str "4/0Ab"),
    ("redirect_uri", .str "https://app.example/cb")]

/-- An inbound request whose body parses to `sampleBody`. -/
def sampleRequest : Request := { headers := [("cookie", "session=1")], json := .ok sampleBody }

/-- An inbound request whose body does not parse. -/
def malformedRequest : Request :=
  { headers := [("cookie", "session=1")], json := .error ⟨"Unexpected end of JSON input"⟩ }

/-- The header map an authenticated call carries. -/
def sampleAuth : List (String × String) := [("Authorization", "Bearer t0k3n")]

/-- A backend that answers every call with the given response. -/
def respondWith (r : BackendResponse) : OutboundRequest → Completion BackendResponse :=
  fun _ => .ok r

/-- A backend that cannot be reached: every call rejects with the given message. -/
def failWith (m : String) : OutboundRequest → Completion BackendResponse :=
  fun _ => .error ⟨m⟩

/-- A credential check that rejects every request with the given response. -/
def rejectAll (unauthorized : ClientResponse) :
    Request → Except ClientResponse (List (String × String)) :=
  fun _ => .error unauthorized

/-! ## Lemmas: decimal digits -/

theorem digitChar_toNat (d : Nat) (h : d < 10) : (digitChar d).toNat = 48 + d := by
  interval_cases d <;> rfl

theorem isDigit_digitChar (d : Nat) (h : d < 10) : isDigit (digitChar d) = true := by
  interval_cases d <;> rfl

theorem decimalCore_append (fuel : Nat) : ∀ (n : Nat) (acc : List Char),
    decimalCore fuel n acc = decimalCore fuel n [] ++ acc := by
  induction fuel with
  | zero => intro n acc; simp [decimalCore]
  | succ f ih =>
    intro n acc
    simp only [decimalCore]
    split
    · simp
    · rw [ih (n / 10) (digitChar (n % 10) :: acc), ih (n / 10) [digitChar (n % 10)]]
      simp

theorem digitsValue_append (xs : List Char) : ∀ (acc : Nat) (c : Char),
    digitsValue acc (xs ++ [c]) = digitsValue acc xs * 10 + (c.toNat - 48) := by
  induction xs with
  | nil => intro acc c; rfl
  | cons x xs ih => intro acc c; exact ih _ c

theorem digitsValue_decimalCore (fuel : Nat) : ∀ n : Nat, n < fuel →
    digitsValue 0 (decimalCore fuel n []) = n := by
  induction fuel with
  | zero => intro n h; omega
  | succ f ih =>
    intro n h
    simp only [decimalCore]
    split
    · rename_i h0
      have hlt : n % 10 < 10 := Nat.mod_lt _ (by decide)
      show 0 * 10 + ((digitChar (n % 10)).toNat - 48) = n
      rw [digitChar_toNat _ hlt]
      omega
    · rename_i h0
      have hlt : n % 10 < 10 := Nat.mod_lt _ (by decide)
      rw [decimalCore_append, digitsValue_append, ih (n / 10) (by omega), digitChar_toNat _ hlt]
      omega

theorem isDigit_decimalCore (fuel : Nat) : ∀ n : Nat, ∀ c ∈ decimalCore fuel n [], isDigit c = true := by
  induction fuel with
  | zero => intro n c h; simp [decimalCore] at h
  | succ f ih =>
    intro n c h
    have hlt : n % 10 < 10 := Nat.mod_lt _ (by decide)
    simp only [decimalCore] at h
    split at h
    · simp at h; subst h; exact isDigit_digitChar _ hlt
    · rw [decimalCore_append] at h
      simp at h
      rcases h with h | h
      · exact ih _ _ h
      · subst h; exact isDigit_digitChar _ hlt

theorem digitChar_ne_zero (d : Nat) (h : d < 10) (h0 : d ≠ 0) : digitChar d ≠ '0' := by
  interval_cases d <;> first | omega | decide

theorem head_decimalCore (fuel : Nat) : ∀ n : Nat, n < fuel → n ≠ 0 →
    ∃ d ds, decimalCore fuel n [] = d :: ds ∧ d ≠ '0' := by
  induction fuel with
  | zero => intro n h; omega
  | succ f ih =>
    intro n h hn
    have hlt : n % 10 < 10 := Nat.mod_lt _ (by decide)
    simp only [decimalCore]
    split
    · rename_i h0
      exact ⟨_, [], rfl, digitChar_ne_zero _ hlt (by omega)⟩
    · rename_i h0
      obtain ⟨d, ds, hd, hne⟩ := ih (n / 10) (by omega) h0
      rw [decimalCore_append, hd]
      exact ⟨d, ds ++ [digitChar (n % 10)], rfl, hne⟩


theorem takeDigits_append (ds : List Char) (rest : List Char)
    (hds : ∀ c ∈ ds, isDigit c = true) (hrest : ∀ c r, rest = c :: r → isDigit c = false) :
    takeDigits (ds ++ rest) = (ds, rest) := by
  induction ds with
  | nil =>
    cases rest with
    | nil => rfl
    | cons c r => simp [takeDigits, hrest c r rfl]
  | cons d ds ih =>
    have hd : isDigit d = true := hds d (by simp)
    have := ih (fun c hc => hds c (by simp [hc]))
    simp [takeDigits, hd, this]

theorem decimal_ne_nil (n : Nat) : decimal n ≠ [] := by
  unfold decimal
  simp only [decimalCore]
  split
  · simp
  · rw [decimalCore_append]; simp

theorem parseNat_decimal (n : Nat) (rest : List Char) (h : Terminated rest) :
    parseNat (decimal n ++ rest) = some (n, rest) := by
  have hall : ∀ c ∈ decimal n, isDigit c = true := isDigit_decimalCore _ _
  have hval : digitsValue 0 (decimal n) = n := digitsValue_decimalCore _ _ (Nat.lt_succ_self n)
  have htd := takeDigits_append (decimal n) rest hall (fun c r hr => (h c r hr).1)
  unfold parseNat
  rw [htd]
  cases hdec : decimal n with
  | nil => exact absurd hdec (decimal_ne_nil n)
  | cons d ds =>
    rw [hdec] at hval
    have hlead : ¬ (d = '0' ∧ ds ≠ []) := by
      rintro ⟨hd, hds⟩
      by_cases hn : n = 0
      · subst hn
        have : decimal 0 = ['0'] := rfl
        rw [this] at hdec
        simp at hdec
        exact hds hdec.2
      · obtain ⟨d', ds', he, hne⟩ := head_decimalCore (n + 1) n (Nat.lt_succ_self n) hn
        have he' : decimal n = d' :: ds' := he
        rw [he'] at hdec
        simp at hdec
        exact hne (hdec.1.trans hd)
    simp only [hlead, if_false]
    cases rest with
    | nil => simp [hval]
    | cons c r =>
      obtain ⟨-, h1, h2, h3⟩ := h c r rfl
      simp [h1, h2, h3, hval]

theorem head_decimal_isDigit (n : Nat) : ∃ d ds, decimal n = d :: ds ∧ isDigit d = true := by
  cases hdec : decimal n with
  | nil => exact absurd hdec (decimal_ne_nil n)
  | cons d ds =>
    refine ⟨d, ds, rfl, ?_⟩
    have hall : ∀ c ∈ decimal n, isDigit c = true := isDigit_decimalCore _ _
    exact hall d (by simp [hdec])

theorem parseNumber_numberChars (z : Int) (rest : List Char) (h : Terminated rest) :
    parseNumber (numberChars z ++ rest) = some (z, rest) := by
  unfold numberChars
  split
  · rename_i hneg
    simp only [List.cons_append, parseNumber, if_true]
    rw [parseNat_decimal _ _ h]
    have habs : (z.natAbs : Int) = -z := Int.ofNat_natAbs_of_nonpos (by omega)
    have hne : z.natAbs ≠ 0 := by omega
    simp only [hne, if_false]
    congr 2
    omega
  · rename_i hpos
    obtain ⟨d, ds, hd, hdig⟩ := head_decimal_isDigit z.natAbs
    have hdm : d ≠ '-' := by
      intro hm; subst hm; simp [isDigit] at hdig
    have := parseNat_decimal z.natAbs rest h
    rw [hd] at this
    rw [hd]
    simp only [List.cons_append, parseNumber, hdm, if_false]
    simp only [List.cons_append] at this
    rw [this]
    have habs : (z.natAbs : Int) = z := Int.natAbs_of_nonneg (by omega)
    simp only [habs]

theorem hex4_control (n : Nat) (h : n < 32) :
    hex4 '0' '0' (hexDigit (n / 16)) (hexDigit (n % 16)) = some n := by
  interval_cases n <;> rfl

theorem char_ofNat_toNat (c : Char) : Char.ofNat c.toNat = c := by
  simp [Char.ofNat_toNat]

theorem parseChars_quoteChar (c : Char) (tail : List Char) :
    parseChars (quoteChar c ++ tail) = consChar c (parseChars tail) := by
  unfold quoteChar
  split_ifs with h1 h2 h3 h4 h5 h6 h7 h8
  · subst h1; rw [parseChars.eq_def]; simp [unescape]
  · subst h2; rw [parseChars.eq_def]; simp [unescape]
  · subst h3; rw [parseChars.eq_def]; simp [unescape]
  · subst h4; rw [parseChars.eq_def]; simp [unescape]
  · subst h5; rw [parseChars.eq_def]; simp [unescape]
  · subst h6; rw [parseChars.eq_def]; simp [unescape]
  · subst h7; rw [parseChars.eq_def]; simp [unescape]
  · rw [parseChars.eq_def]
    have hs : ¬ (0xD800 ≤ c.toNat ∧ c.toNat ≤ 0xDFFF) := by omega
    simp only [List.cons_append, List.nil_append]
    simp [hex4_control _ h8, hs, char_ofNat_toNat]
  · rw [parseChars.eq_def]
    simp only [List.cons_append, List.nil_append, h1, h2, h8, if_false]

theorem parseChars_quoteTail (cs : List Char) (rest : List Char) :
    parseChars (quoteTail cs ++ rest) = some (cs, rest) := by
  induction cs with
  | nil => rw [parseChars.eq_def]; simp [quoteTail]
  | cons c cs ih =>
    simp only [quoteTail, List.append_assoc]
    rw [parseChars_quoteChar, ih]
    rfl


theorem serialize_head (v : Json) : ∃ c t, serialize v = c :: t ∧ isWs c = false ∧
    c ≠ ']' ∧ c ≠ '}' := by
  cases v with
  | null => exact ⟨_, _, rfl, by decide, by decide, by decide⟩
  | bool b => cases b <;> exact ⟨_, _, rfl, by decide, by decide, by decide⟩
  | num n hn =>
    show ∃ c t, numberChars n = c :: t ∧ _
    unfold numberChars
    split
    · exact ⟨_, _, rfl, by decide, by decide, by decide⟩
    · obtain ⟨d, ds, hd, hdig⟩ := head_decimal_isDigit n.natAbs
      refine ⟨d, ds, hd, ?_, ?_, ?_⟩
      · simp only [isDigit, Bool.and_eq_true, decide_eq_true_eq] at hdig
        simp only [isWs, Bool.or_eq_false_iff, decide_eq_false_iff_not]
        refine ⟨⟨⟨?_, ?_⟩, ?_⟩, ?_⟩ <;> (intro hc; subst hc; revert hdig; decide)
      · intro hc; subst hc; revert hdig; decide
      · intro hc; subst hc; revert hdig; decide
  | str s => exact ⟨_, _, rfl, by decide, by decide, by decide⟩
  | arr xs => cases xs <;> exact ⟨_, _, rfl, by decide, by decide, by decide⟩
  | obj kvs =>
    cases kvs with
    | nil => exact ⟨_, _, rfl, by decide, by decide, by decide⟩
    | cons kv kvs => cases kv; exact ⟨_, _, rfl, by decide, by decide, by decide⟩

/-! ## Lemmas: reading back what `serialize` wrote -/

theorem skipWs_cons (c : Char) (t : List Char) (h : isWs c = false) : skipWs (c :: t) = c :: t := by
  simp [skipWs, h]

theorem terminated_elems (xs : List Json) (rest : List Char) : Terminated (serializeElems xs ++ rest) := by
  intro c r h
  cases xs with
  | nil =>
    simp only [serializeElems, List.cons_append, List.nil_append, List.cons.injEq] at h
    obtain ⟨h, -⟩ := h; subst h; exact ⟨by decide, by decide, by decide, by decide⟩
  | cons y ys =>
    simp only [serializeElems, List.cons_append, List.cons.injEq] at h
    obtain ⟨h, -⟩ := h; subst h; exact ⟨by decide, by decide, by decide, by decide⟩

theorem terminated_members (kvs : List (String × Json)) (rest : List Char) :
    Terminated (serializeMembers kvs ++ rest) := by
  intro c r h
  cases kvs with
  | nil =>
    simp only [serializeMembers, List.cons_append, List.nil_append, List.cons.injEq] at h
    obtain ⟨h, -⟩ := h; subst h; exact ⟨by decide, by decide, by decide, by decide⟩
  | cons y ys =>
    obtain ⟨k, v⟩ := y
    simp only [serializeMembers, List.cons_append, List.cons.injEq] at h
    obtain ⟨h, -⟩ := h; subst h; exact ⟨by decide, by decide, by decide, by decide⟩

theorem serializeElems_length_pos (xs : List Json) : 1 ≤ (serializeElems xs).length := by
  cases xs <;> simp [serializeElems]

theorem serializeMembers_length_pos (kvs : List (String × Json)) :
    1 ≤ (serializeMembers kvs).length := by
  cases kvs with
  | nil => simp [serializeMembers]
  | cons kv kvs => cases kv; simp [serializeMembers]


theorem numberChars_head (n : Int) : ∃ c t, numberChars n = c :: t ∧
    c ≠ 'n' ∧ c ≠ 't' ∧ c ≠ 'f' ∧ c ≠ '"' ∧ c ≠ '[' ∧ c ≠ '{' := by
  unfold numberChars
  split
  · exact ⟨_, _, rfl, by decide, by decide, by decide, by decide, by decide, by decide⟩
  · obtain ⟨d, ds, hd, hdig⟩ := head_decimal_isDigit n.natAbs
    refine ⟨d, ds, hd, ?_, ?_, ?_, ?_, ?_, ?_⟩ <;>
      (intro hc; subst hc; revert hdig; decide)

theorem parse_serialize_fuel (fuel : Nat) :
    (∀ v rest, (serialize v).length ≤ fuel → Terminated rest →
      parseValue fuel (serialize v ++ rest) = some (v, rest)) ∧
    (∀ x xs rest, (serialize x ++ serializeElems xs).length ≤ fuel →
      parseElems fuel (serialize x ++ (serializeElems xs ++ rest)) = some (x :: xs, rest)) ∧
    (∀ k v kvs rest,
      (quoteJSONString k ++ ':' :: (serialize v ++ serializeMembers kvs)).length ≤ fuel →
      parseMembers fuel (quoteJSONString k ++ ':' :: (serialize v ++ (serializeMembers kvs ++ rest)))
        = some ((k, v) :: kvs, rest)) := by
  induction fuel with
  | zero =>
    refine ⟨?_, ?_, ?_⟩
    · intro v rest hlen
      obtain ⟨c, t, hc, -⟩ := serialize_head v
      rw [hc] at hlen; simp at hlen
    · intro x xs rest hlen
      have := serializeElems_length_pos xs
      simp only [List.length_append] at hlen
      omega
    · intro k v kvs rest hlen
      simp [quoteJSONString] at hlen
  | succ f ih =>
    obtain ⟨ihV, ihE, ihM⟩ := ih
    refine ⟨?_, ?_, ?_⟩
    · intro v rest hlen hterm
      rw [parseValue.eq_2]
      cases v with
      | null => simp [serialize, skipWs, isWs, expect]
      | bool b => cases b <;> simp [serialize, skipWs, isWs, expect]
      | num n hn =>
        obtain ⟨c, t, hc, hws, -, -⟩ := serialize_head (.num n hn)
        obtain ⟨c', t', hc', g1, g2, g3, g4, g5, g6⟩ := numberChars_head n
        have hnum := parseNumber_numberChars n rest hterm
        have hc2 : numberChars n = c :: t := hc
        rw [hc2] at hc'
        simp only [List.cons.injEq] at hc'
        obtain ⟨e1, e2⟩ := hc'
        subst e1; subst e2
        rw [hc2] at hnum
        simp only [List.cons_append] at hnum
        rw [hc]
        simp only [List.cons_append, skipWs_cons c _ hws, g1, g2, g3, g4, g5, g6, if_false, hnum,
          hn, dite_true]
      | str s =>
        simp [serialize, quoteJSONString, skipWs, isWs, parseChars_quoteTail]
      | arr xs =>
        cases xs with
        | nil => simp [serialize, skipWs, isWs]
        | cons x xs =>
          obtain ⟨c, t, hc, hws, h1, h2⟩ := serialize_head x
          have hE := ihE x xs rest (by simp [serialize] at hlen; simpa using hlen)
          rw [hc] at hE
          simp only [List.cons_append] at hE
          simp only [serialize, List.cons_append, List.append_assoc]
          rw [skipWs_cons '[' _ (by decide), hc]
          simp only [List.cons_append, skipWs_cons c _ hws, h1, if_false, hE]
          simp
      | obj kvs =>
        cases kvs with
        | nil => simp [serialize, skipWs, isWs]
        | cons kv kvs =>
          obtain ⟨k, v⟩ := kv
          have hM := ihM k v kvs rest (by simp [serialize] at hlen; simpa using hlen)
          simp only [quoteJSONString, List.cons_append] at hM
          simp only [serialize, quoteJSONString, List.cons_append, List.append_assoc]
          rw [skipWs_cons '{' _ (by decide)]
          simp only [skipWs_cons '"' _ (by decide), hM]
          simp
    · intro x xs rest hlen
      rw [parseElems.eq_2]
      have hpos := serializeElems_length_pos xs
      simp only [List.length_append] at hlen
      rw [ihV x _ (by omega) (terminated_elems xs rest)]
      cases xs with
      | nil => simp [serializeElems, skipWs, isWs]
      | cons y ys =>
        have hE := ihE y ys rest (by simp [serializeElems] at hlen; simp; omega)
        simp only [serializeElems, List.cons_append, List.append_assoc]
        rw [skipWs_cons ',' _ (by decide)]
        simp [hE]
    · intro k v kvs rest hlen
      rw [parseMembers.eq_2]
      have hpos := serializeMembers_length_pos kvs
      simp only [quoteJSONString, List.cons_append, List.length_cons, List.length_append] at hlen
      simp only [quoteJSONString, List.cons_append]
      rw [skipWs_cons '"' _ (by decide)]
      simp only [if_true, parseChars_quoteTail]
      rw [skipWs_cons ':' _ (by decide)]
      simp only [if_true]
      rw [ihV v _ (by omega) (terminated_members kvs rest)]
      cases kvs with
      | nil => simp [serializeMembers, skipWs, isWs]
      | cons kv kvs =>
        obtain ⟨k2, v2⟩ := kv
        have hM := ihM k2 v2 kvs rest (by
          simp [serializeMembers, quoteJSONString] at hlen
          simp [quoteJSONString]; omega)
        simp only [serializeMembers, List.cons_append, List.append_assoc]
        rw [skipWs_cons ',' _ (by decide)]
        simp [hM]

theorem terminated_nil : Terminated [] := by
  intro c r h; cases h

/-- Reading back the text `JSON.stringify` wrote gives the value it was written from. -/
theorem JSON_parse_stringify (v : Json) : JSON_parse (JSON_stringify v) = some v := by
  have h := (parse_serialize_fuel ((serialize v).length + 1)).1 v [] (by omega) terminated_nil
  simp only [List.append_nil] at h
  unfold JSON_parse JSON_stringify
  simp only [h, skipWs]

/-! ## Lemmas: object spread -/

theorem mem_setProp_self (acc : List (String × String)) (k v : String) :
    (k, v) ∈ setProp acc k v := by
  induction acc with
  | nil => simp [setProp]
  | cons kv acc ih =>
    obtain ⟨k', v'⟩ := kv
    simp only [setProp]
    split
    · rename_i h; subst h; simp
    · simp [ih]

theorem mem_setProp_of_ne (acc : List (String × String)) (k v k' v' : String)
    (h : (k', v') ∈ acc) (hne : k' ≠ k) : (k', v') ∈ setProp acc k v := by
  induction acc with
  | nil => simp at h
  | cons kv acc ih =>
    obtain ⟨k2, v2⟩ := kv
    simp only [setProp]
    simp only [List.mem_cons, Prod.mk.injEq] at h
    split
    · rename_i h2
      rcases h with ⟨h1, -⟩ | h
      · exact absurd (h1.trans h2) hne
      · simp [h]
    · rcases h with ⟨h1, h3⟩ | h
      · simp [h1, h3]
      · simp [ih h]

theorem mem_of_mem_setProp (acc : List (String × String)) (k v k' v' : String)
    (h : (k', v') ∈ setProp acc k v) : (k', v') ∈ acc ∨ (k', v') = (k, v) := by
  induction acc with
  | nil => simp [setProp] at h; simp [h]
  | cons kv acc ih =>
    obtain ⟨k2, v2⟩ := kv
    simp only [setProp] at h
    split at h
    · rename_i h2
      simp only [List.mem_cons, Prod.mk.injEq] at h
      rcases h with ⟨h1, h3⟩ | h
      · right; simp [h1, h3, h2]
      · left; simp [h]
    · simp only [List.mem_cons, Prod.mk.injEq] at h
      rcases h with ⟨h1, h3⟩ | h
      · left; simp [h1, h3]
      · rcases ih h with h | h
        · left; simp [h]
        · right; exact h

theorem keys_setProp (acc : List (String × String)) (k v : String) :
    (setProp acc k v).map Prod.fst =
      if k ∈ acc.map Prod.fst then acc.map Prod.fst else acc.map Prod.fst ++ [k] := by
  induction acc with
  | nil => simp [setProp]
  | cons kv acc ih =>
    obtain ⟨k2, v2⟩ := kv
    simp only [setProp]
    split
    · rename_i h2; subst h2; simp
    · rename_i h2
      simp only [List.map_cons, ih, List.mem_cons]
      have h3 : ¬ k = k2 := fun h => h2 h.symm
      simp only [h3, false_or]
      split <;> simp

theorem nodup_keys_setProp (acc : List (String × String)) (k v : String)
    (h : (acc.map Prod.fst).Nodup) : ((setProp acc k v).map Prod.fst).Nodup := by
  rw [keys_setProp]
  split
  · exact h
  · rename_i hk
    rw [List.nodup_append]
    refine ⟨h, by simp, ?_⟩
    intro a ha hb
    simp only [List.mem_singleton] at hb
    subst hb
    exact hk ha

theorem mem_spread_of_mem_target (source : List (String × String)) :
    ∀ (target : List (String × String)) (k v : String),
      (k, v) ∈ target → k ∉ source.map Prod.fst → (k, v) ∈ spread target source := by
  induction source with
  | nil => intro target k v h _; exact h
  | cons kv source ih =>
    intro target k v h hk
    obtain ⟨k2, v2⟩ := kv
    simp only [List.map_cons, List.mem_cons, not_or] at hk
    exact ih (setProp target k2 v2) k v (mem_setProp_of_ne _ _ _ _ _ h hk.1) hk.2

theorem mem_spread_of_mem_source (source : List (String × String)) :
    ∀ (target : List (String × String)) (k v : String),
      (source.map Prod.fst).Nodup → (k, v) ∈ source → (k, v) ∈ spread target source := by
  induction source with
  | nil => intro target k v _ h; simp at h
  | cons kv source ih =>
    intro target k v hnd h
    obtain ⟨k2, v2⟩ := kv
    simp only [List.map_cons, List.nodup_cons] at hnd
    simp only [List.mem_cons, Prod.mk.injEq] at h
    rcases h with ⟨h1, h2⟩ | h
    · subst h1; subst h2
      exact mem_spread_of_mem_target source _ k v (mem_setProp_self _ _ _) hnd.1
    · exact ih (setProp target k2 v2) k v hnd.2 h

theorem mem_of_mem_spread (source : List (String × String)) :
    ∀ (target : List (String × String)) (k v : String),
      (k, v) ∈ spread target source → (k, v) ∈ target ∨ (k, v) ∈ source := by
  induction source with
  | nil => intro target k v h; exact Or.inl h
  | cons kv source ih =>
    intro target k v h
    obtain ⟨k2, v2⟩ := kv
    rcases ih (setProp target k2 v2) k v h with h | h
    · rcases mem_of_mem_setProp _ _ _ _ _ h with h | h
      · exact Or.inl h
      · right; simp only [Prod.mk.injEq] at h; simp [h.1, h.2]
    · right; simp [h]

theorem nodup_keys_spread (source : List (String × String)) :
    ∀ target : List (String × String), (target.map Prod.fst).Nodup →
      ((spread target source).map Prod.fst).Nodup := by
  induction source with
  | nil => intro target h; exact h
  | cons kv source ih =>
    intro target h
    exact ih _ (nodup_keys_setProp _ _ _ h)

/-! ## Lemmas: the handler -/

theorem handler_fetches (env : ProcessEnv)
    (fetch : OutboundRequest → Completion BackendResponse) (request : Request)
    (authHeader : List (String × String)) :
    (handler env fetch request authHeader).fetches = (tryBlock env fetch request authHeader).1 := by
  unfold handler
  split <;> (rename_i h; rw [h])

theorem tryBlock_fetches (env : ProcessEnv)
    (fetch : OutboundRequest → Completion BackendResponse) (request : Request)
    (authHeader : List (String × String)) (b : Json) (hb : request.json = .ok b) :
    (tryBlock env fetch request authHeader).1 = [outboundRequest env authHeader b] := by
  unfold tryBlock
  rw [hb]
  simp only
  cases fetch (outboundRequest env authHeader b) with
  | error e => rfl
  | ok r =>
    simp only
    cases r.json with
    | error e => rfl
    | ok d =>
      simp only
      cases r.ok with
      | true => rfl
      | false =>
        simp only [Bool.not_false, if_true]
        cases getProp d "detail" with
        | error e => rfl
        | ok detail =>
          simp only
          cases newError (orElse detail (.str fallbackMessage)) <;> rfl

theorem fetches_of_parsed (env : ProcessEnv)
    (fetch : OutboundRequest → Completion BackendResponse) (request : Request)
    (authHeader : List (String × String)) (b : Json) (hb : request.json = .ok b) :
    (handler env fetch request authHeader).fetches = [outboundRequest env authHeader b] := by
  rw [handler_fetches, tryBlock_fetches env fetch request authHeader b hb]

theorem completion_of_failure (env : ProcessEnv)
    (fetch : OutboundRequest → Completion BackendResponse) (request : Request)
    (authHeader : List (String × String)) (b : Json) (r : BackendResponse) (d : Json)
    (hb : request.json = .ok b) (hf : fetch (outboundRequest env authHeader b) = .ok r)
    (hd : r.json = .ok d) (hnok : r.ok = false) :
    (handler env fetch request authHeader).completion =
      match getProp d "detail" with
      | .error e => .ok { status := 500, body := .obj [("error", .str e.message)] }
      | .ok detail =>
        match toStringJs (orElse detail (.str fallbackMessage)) with
        | .error e => .ok { status := 500, body := .obj [("error", .str e.message)] }
        | .ok m => .ok { status := 500, body := .obj [("error", .str m)] } := by
  unfold handler tryBlock
  rw [hb]
  simp only [hf, hd, hnok, Bool.not_false, if_true]
  cases getProp d "detail" with
  | error e => rfl
  | ok detail =>
    simp only [newError]
    cases toStringJs (orElse detail (.str fallbackMessage)) <;> rfl

theorem completion_of_success (env : ProcessEnv)
    (fetch : OutboundRequest → Completion BackendResponse) (request : Request)
    (authHeader : List (String × String)) (b : Json) (r : BackendResponse) (d : Json)
    (hb : request.json = .ok b) (hf : fetch (outboundRequest env authHeader b) = .ok r)
    (hd : r.json = .ok d) (hok : r.ok = true) :
    (handler env fetch request authHeader).completion = .ok { status := 200, body := d } := by
  unfold handler tryBlock
  rw [hb]
  simp only [hf, hd, hok]
  rfl

theorem ok_of_status (r : BackendResponse) (hlo : 200 ≤ r.status) (hhi : r.status ≤ 299) :
    r.ok = true := by
  simp [BackendResponse.ok, hlo, hhi]

theorem not_ok_of_status (r : BackendResponse) (h : r.status < 200 ∨ 299 < r.status) :
    r.ok = false := by
  unfold BackendResponse.ok
  rcases h with h | h
  · simp; omega
  · simp; omega

/-! ## The claims -/

/-- C1: when the inbound body parses, the fetch resolves with any status in 200-299 and the
backend body parses to `d`, the handler answers status 200 with body `d` itself. -/
theorem success_passes_body_through (env : ProcessEnv)
    (fetch : OutboundRequest → Completion BackendResponse) (request : Request)
    (authHeader : List (String × String)) (b : Json) (r : BackendResponse) (d : Json)
    (hb : request.json = .ok b) (hf : fetch (outboundRequest env authHeader b) = .ok r)
    (hlo : 200 ≤ r.status) (hhi : r.status ≤ 299) (hd : r.json = .ok d) :
    (handler env fetch request authHeader).completion = .ok { status := 200, body := d } :=
  completion_of_success env fetch request authHeader b r d hb hf hd (ok_of_status r hlo hhi)

/-- Witness for C1: a backend answering 201 with `{"status":"connected"}`. -/
theorem success_passes_body_through_witness :
    (handler sampleEnv (respondWith ⟨201, .ok (.obj [("status", .str "connected")])⟩)
      sampleRequest sampleAuth).completion
      = .ok { status := 200, body := .obj [("status", .str "connected")] } :=
  success_passes_body_through sampleEnv _ sampleRequest sampleAuth sampleBody
    ⟨201, .ok (.obj [("status", .str "connected")])⟩ _ rfl rfl (by decide) (by decide) rfl


/-- C2 (counterexample): a backend answering 400 with `{"detail":""}` gets the fallback text
in the `error` field, not the empty detail. -/
theorem empty_detail_not_echoed :
    (handler sampleEnv (respondWith ⟨400, .ok (.obj [("detail", .str "")])⟩)
      sampleRequest sampleAuth).completion
      ≠ .ok { status := 500, body := .obj [("error", .str "")] } := by
  have h : (handler sampleEnv (respondWith ⟨400, .ok (.obj [("detail", .str "")])⟩)
      sampleRequest sampleAuth).completion
      = .ok { status := 500, body := .obj [("error", .str fallbackMessage)] } := rfl
  rw [h]
  simp [fallbackMessage]

/-- C2 (amended): for a non-success backend status and a backend body that is an object whose
`detail` member is `v`, the handler answers 500 with `{error: m}`: `m` is `v` when `v` is a
non-empty string, the fallback text when `v` is falsy, and otherwise the string conversion of
`v` (or the message of the error that conversion throws). -/
theorem backend_detail_becomes_error (env : ProcessEnv)
    (fetch : OutboundRequest → Completion BackendResponse) (request : Request)
    (authHeader : List (String × String)) (b : Json) (r : BackendResponse)
    (kvs : List (String × Json)) (v : Json)
    (hb : request.json = .ok b) (hf : fetch (outboundRequest env authHeader b) = .ok r)
    (hst : r.status < 200 ∨ 299 < r.status) (hd : r.json = .ok (.obj kvs))
    (hv : getOwn kvs "detail" = some v) :
    (∀ s, v = .str s → s ≠ "" →
      (handler env fetch request authHeader).completion
        = .ok { status := 500, body := .obj [("error", .str s)] }) ∧
    (truthy v = false →
      (handler env fetch request authHeader).completion
        = .ok { status := 500, body := .obj [("error", .str fallbackMessage)] }) ∧
    (truthy v = true →
      ∃ m, (toStringJs v = .ok m ∨ toStringJs v = .error ⟨m⟩) ∧
        (handler env fetch request authHeader).completion
          = .ok { status := 500, body := .obj [("error", .str m)] }) := by
  have hc := completion_of_failure env fetch request authHeader b r _ hb hf hd
    (not_ok_of_status r hst)
  simp only [getProp, hv, orElse] at hc
  refine ⟨?_, ?_, ?_⟩
  · intro s hs hne
    subst hs
    have ht : truthy (.str s) = true := by simp [truthy, hne]
    rw [hc]
    simp only [ht, if_true, toStringJs]
  · intro ht
    rw [hc]
    simp only [ht, Bool.false_eq_true, if_false, toStringJs]
  · intro ht
    rw [hc]
    simp only [ht, if_true]
    cases hts : toStringJs v with
    | error e => exact ⟨e.message, Or.inr rfl, rfl⟩
    | ok m => exact ⟨m, Or.inl rfl, rfl⟩

/-- Witness for C2 (amended): a backend answering 400 with `{"detail":"invalid code"}`. -/
theorem backend_detail_becomes_error_witness :
    (handler sampleEnv (respondWith ⟨400, .ok (.obj [("detail", .str "invalid code")])⟩)
      sampleRequest sampleAuth).completion
      = .ok { status := 500, body := .obj [("error", .str "invalid code")] } :=
  (backend_detail_becomes_error sampleEnv _ sampleRequest sampleAuth sampleBody
    ⟨400, .ok (.obj [("detail", .str "invalid code")])⟩ [("detail", .str "invalid code")]
    (.str "invalid code") rfl rfl (by decide) rfl rfl).1 "invalid code" rfl (by decide)

/-- C3 (counterexample): a backend answering 400 with a body that is not JSON gets the parse
failure's message in the `error` field, not the fallback text. -/
theorem unparseable_backend_body_not_fallback :
    (handler sampleEnv (respondWith ⟨400, .error ⟨"Unexpected token < in JSON at position 0"⟩⟩)
      sampleRequest sampleAuth).completion
      ≠ .ok { status := 500, body := .obj [("error", .str "Failed to connect OAuth integration")] } := by
  have h : (handler sampleEnv
      (respondWith ⟨400, .error ⟨"Unexpected token < in JSON at position 0"⟩⟩)
      sampleRequest sampleAuth).completion
      = .ok { status := 500,
              body := .obj [("error", .str "Unexpected token < in JSON at position 0")] } := rfl
  rw [h]
  simp

/-- C3 (amended): for a non-success backend status, a backend body that parses to a value
other than `null` and has no `detail` member gives 500 with the fallback text, and a backend
body that does not parse gives 500 with the message of the parse failure. -/
theorem backend_without_detail (env : ProcessEnv)
    (fetch : OutboundRequest → Completion BackendResponse) (request : Request)
    (authHeader : List (String × String)) (b : Json) (r : BackendResponse)
    (hb : request.json = .ok b) (hf : fetch (outboundRequest env authHeader b) = .ok r)
    (hst : r.status < 200 ∨ 299 < r.status) :
    (∀ data, r.json = .ok data → data ≠ .null →
      (∀ kvs, data = .obj kvs → getOwn kvs "detail" = none) →
      (handler env fetch request authHeader).completion
        = .ok { status := 500, body := .obj [("error", .str fallbackMessage)] }) ∧
    (∀ e, r.json = .error e →
      (handler env fetch request authHeader).completion
        = .ok { status := 500, body := .obj [("error", .str e.message)] }) := by
  refine ⟨?_, ?_⟩
  · intro data hd hnull hno
    have hc := completion_of_failure env fetch request authHeader b r _ hb hf hd
      (not_ok_of_status r hst)
    have hg : getProp data "detail" = .ok none := by
      cases data with
      | null => exact absurd rfl hnull
      | obj kvs => simp [getProp, hno kvs rfl]
      | _ => rfl
    rw [hc, hg]
    rfl
  · intro e he
    unfold handler tryBlock
    rw [hb]
    simp only [hf, he]
    rfl

/-- Witness for C3 (amended): a backend answering 400 with `{"code":7}`. -/
theorem backend_without_detail_witness :
    (handler sampleEnv (respondWith ⟨400, .ok (.obj [("code", .num 7 (by decide))])⟩)
      sampleRequest sampleAuth).completion
      = .ok { status := 500, body := .obj [("error", .str "Failed to connect OAuth integration")] } :=
  (backend_without_detail sampleEnv _ sampleRequest sampleAuth sampleBody
    ⟨400, .ok (.obj [("code", .num 7 (by decide))])⟩ rfl rfl (by decide)).1 (.obj [("code", .num 7 (by decide))]) rfl
    (by simp) (by intro kvs h; cases h; rfl)

/-- C4: when the inbound body parses and the fetch rejects with an error of message `m`, the
handler completes normally with status 500 and body `{error: m}`. -/
theorem transport_failure_becomes_500 (env : ProcessEnv)
    (fetch : OutboundRequest → Completion BackendResponse) (request : Request)
    (authHeader : List (String × String)) (b : Json) (m : String)
    (hb : request.json = .ok b)
    (hf : fetch (outboundRequest env authHeader b) = .error ⟨m⟩) :
    (handler env fetch request authHeader).completion
      = .ok { status := 500, body := .obj [("error", .str m)] } := by
  unfold handler tryBlock
  rw [hb]
  simp only [hf]
  rfl

/-- Witness for C4: the backend refuses the connection. -/
theorem transport_failure_becomes_500_witness :
    (handler sampleEnv (failWith "connection refused") sampleRequest sampleAuth).completion
      = .ok { status := 500, body := .obj [("error", .str "connection refused")] } :=
  transport_failure_becomes_500 sampleEnv (failWith "connection refused") sampleRequest
    sampleAuth sampleBody "connection refused" rfl rfl


/-- C5: the handler always completes with a response; its status is 200 exactly when the
inbound body parsed, the fetch resolved, the backend body parsed and the backend status was in
200-299; otherwise it is 500 with a body `{error: m}`.  So the status is never 400, 401 or
404, and it differs from every non-success backend status other than 500. -/
theorem status_is_200_or_500 (env : ProcessEnv)
    (fetch : OutboundRequest → Completion BackendResponse) (request : Request)
    (authHeader : List (String × String)) :
    ∃ response, (handler env fetch request authHeader).completion = .ok response ∧
      (response.status = 200 ↔
        ∃ b r d, request.json = .ok b ∧ fetch (outboundRequest env authHeader b) = .ok r ∧
          r.json = .ok d ∧ 200 ≤ r.status ∧ r.status ≤ 299) ∧
      (response.status ≠ 200 →
        response.status = 500 ∧ ∃ m, response.body = .obj [("error", .str m)]) ∧
      (response.status = 200 ∨ response.status = 500) ∧
      response.status ≠ 400 ∧ response.status ≠ 401 ∧ response.status ≠ 404 ∧
      (∀ b r, request.json = .ok b → fetch (outboundRequest env authHeader b) = .ok r →
        (r.status < 200 ∨ 299 < r.status) → r.status ≠ 500 → response.status ≠ r.status) := by
  have key : ∀ m : String, ∀ resp : ClientResponse,
      resp = { status := 500, body := .obj [("error", .str m)] } →
      (¬ ∃ b r d, request.json = .ok b ∧ fetch (outboundRequest env authHeader b) = .ok r ∧
          r.json = .ok d ∧ 200 ≤ r.status ∧ r.status ≤ 299) →
      (resp.status = 200 ↔
        ∃ b r d, request.json = .ok b ∧ fetch (outboundRequest env authHeader b) = .ok r ∧
          r.json = .ok d ∧ 200 ≤ r.status ∧ r.status ≤ 299) ∧
      (resp.status ≠ 200 → resp.status = 500 ∧ ∃ m, resp.body = .obj [("error", .str m)]) ∧
      (resp.status = 200 ∨ resp.status = 500) ∧
      resp.status ≠ 400 ∧ resp.status ≠ 401 ∧ resp.status ≠ 404 ∧
      (∀ b r, request.json = .ok b → fetch (outboundRequest env authHeader b) = .ok r →
        (r.status < 200 ∨ 299 < r.status) → r.status ≠ 500 → resp.status ≠ r.status) := by
    intro m resp hresp hnot
    subst hresp
    refine ⟨⟨fun h => by simp at h, fun h => absurd h hnot⟩, fun _ => ⟨rfl, m, rfl⟩,
      Or.inr rfl, by simp, by simp, by simp, ?_⟩
    intro b r _ _ _ h5 h
    exact h5 h.symm
  have split : ∀ {α : Type} (c : Completion α), (∃ e, c = .error e) ∨ (∃ a, c = .ok a) := by
    intro α c; cases c <;> simp
  rcases split request.json with ⟨e, hb⟩ | ⟨b, hb⟩
  · refine ⟨{ status := 500, body := .obj [("error", .str e.message)] }, ?_, key _ _ rfl ?_⟩
    · unfold handler tryBlock; rw [hb]; rfl
    · rintro ⟨b, r, d, h, -⟩; rw [hb] at h; cases h
  · rcases split (fetch (outboundRequest env authHeader b)) with ⟨e, hf⟩ | ⟨r, hf⟩
    · refine ⟨{ status := 500, body := .obj [("error", .str e.message)] }, ?_, key _ _ rfl ?_⟩
      · unfold handler tryBlock; rw [hb]; simp only [hf]; rfl
      · rintro ⟨b', r, d, h, h2, -⟩
        rw [hb] at h; cases h; rw [hf] at h2; cases h2
    · rcases split r.json with ⟨e, hd⟩ | ⟨d, hd⟩
      · refine ⟨{ status := 500, body := .obj [("error", .str e.message)] }, ?_, key _ _ rfl ?_⟩
        · unfold handler tryBlock; rw [hb]; simp only [hf, hd]; rfl
        · rintro ⟨b', r', d, h, h2, h3, -⟩
          rw [hb] at h; cases h; rw [hf] at h2; cases h2; rw [hd] at h3; cases h3
      · by_cases hst : 200 ≤ r.status ∧ r.status ≤ 299
        · refine ⟨{ status := 200, body := d },
            completion_of_success env fetch request authHeader b r d hb hf hd
              (ok_of_status r hst.1 hst.2),
            ⟨fun _ => ⟨b, r, d, hb, hf, hd, hst.1, hst.2⟩, fun _ => rfl⟩,
            fun h => absurd rfl h, Or.inl rfl, by simp, by simp, by simp, ?_⟩
          intro b' r' h h2 h3 _
          rw [hb] at h; cases h; rw [hf] at h2; cases h2
          omega
        · have hst' : r.status < 200 ∨ 299 < r.status := by omega
          have hc := completion_of_failure env fetch request authHeader b r d hb hf hd
            (not_ok_of_status r hst')
          have hnot : ¬ ∃ b r d, request.json = .ok b ∧
              fetch (outboundRequest env authHeader b) = .ok r ∧
              r.json = .ok d ∧ 200 ≤ r.status ∧ r.status ≤ 299 := by
            rintro ⟨b', r', d', h, h2, -, h4, h5⟩
            rw [hb] at h
            cases h; rw [hf] at h2; cases h2
            exact hst ⟨h4, h5⟩
          cases hg : getProp d "detail" with
          | error e =>
            rw [hg] at hc
            exact ⟨_, hc, key e.message _ rfl hnot⟩
          | ok detail =>
            rw [hg] at hc
            simp only at hc
            cases hs : toStringJs (orElse detail (.str fallbackMessage)) with
            | error e =>
              rw [hs] at hc
              exact ⟨_, hc, key e.message _ rfl hnot⟩
            | ok m =>
              rw [hs] at hc
              exact ⟨_, hc, key m _ rfl hnot⟩

/-- Witness for C5: the sample request against a backend answering 404 with a detail. -/
theorem status_is_200_or_500_witness :
    ∃ response,
      (handler sampleEnv (respondWith ⟨404, .ok (.obj [("detail", .str "Not Found")])⟩)
        sampleRequest sampleAuth).completion = .ok response ∧
      response.status = 500 ∧ response.status ≠ 404 := by
  obtain ⟨response, hc, -, h500, -, -, -, h404, -⟩ :=
    status_is_200_or_500 sampleEnv
      (respondWith ⟨404, .ok (.obj [("detail", .str "Not Found")])⟩) sampleRequest sampleAuth
  refine ⟨response, hc, (h500 ?_).1, h404⟩
  have h : (handler sampleEnv (respondWith ⟨404, .ok (.obj [("detail", .str "Not Found")])⟩)
      sampleRequest sampleAuth).completion
      = .ok { status := 500, body := .obj [("error", .str "Not Found")] } := rfl
  rw [h] at hc
  injection hc with hc
  rw [← hc]
  decide

/-- C6: when the inbound body parses to `b`, the handler makes exactly one fetch call: method
POST, to the resolved base address followed by `/integrations/connect/oauth`, with the body
`JSON.stringify(b)`, which parses back to `b`. -/
theorem outbound_request_forwards_body (env : ProcessEnv)
    (fetch : OutboundRequest → Completion BackendResponse) (request : Request)
    (authHeader : List (String × String)) (b : Json) (hb : request.json = .ok b) :
    ∃ out, (handler env fetch request authHeader).fetches = [out] ∧
      out.method = "POST" ∧
      out.url = templateText (appServerUrl env) ++ "/integrations/connect/oauth" ∧
      (∀ base, appServerUrl env = some base →
        out.url = base ++ "/integrations/connect/oauth") ∧
      out.body = JSON_stringify b ∧
      JSON_parse out.body = some b := by
  refine ⟨outboundRequest env authHeader b,
    fetches_of_parsed env fetch request authHeader b hb, rfl, rfl, ?_, rfl,
    JSON_parse_stringify b⟩
  intro base hbase
  simp [outboundRequest, hbase, templateText]

/-- Witness for C6: the sample request against a backend answering 200. -/
theorem outbound_request_forwards_body_witness :
    ∃ out, (handler sampleEnv (respondWith ⟨200, .ok .null⟩) sampleRequest sampleAuth).fetches
        = [out] ∧
      out.method = "POST" ∧
      out.url = templateText (appServerUrl sampleEnv) ++ "/integrations/connect/oauth" ∧
      (∀ base, appServerUrl sampleEnv = some base →
        out.url = base ++ "/integrations/connect/oauth") ∧
      out.body = JSON_stringify sampleBody ∧
      JSON_parse out.body = some sampleBody :=
  outbound_request_forwards_body sampleEnv (respondWith ⟨200, .ok .null⟩) sampleRequest
    sampleAuth sampleBody rfl


/-- C7: for a header map `authHeader` of an AuthContext (its keys are distinct, and it carries
authorization headers only, so none of them is named `Content-Type`), the outbound headers
contain `Content-Type: application/json`, contain every entry of `authHeader` with its value
unchanged, and contain no other entry. -/
theorem outbound_headers_are_spread (env : ProcessEnv) (authHeader : List (String × String))
    (b : Json) (hkeys : (authHeader.map Prod.fst).Nodup)
    (hauth : "Content-Type" ∉ authHeader.map Prod.fst) :
    ("Content-Type", "application/json") ∈ (outboundRequest env authHeader b).headers ∧
    (∀ k v, (k, v) ∈ authHeader → (k, v) ∈ (outboundRequest env authHeader b).headers) ∧
    (∀ k v, (k, v) ∈ (outboundRequest env authHeader b).headers →
      (k, v) = ("Content-Type", "application/json") ∨ (k, v) ∈ authHeader) ∧
    (((outboundRequest env authHeader b).headers).map Prod.fst).Nodup := by
  show ("Content-Type", "application/json") ∈
      spread [("Content-Type", "application/json")] authHeader ∧
    (∀ k v, (k, v) ∈ authHeader →
      (k, v) ∈ spread [("Content-Type", "application/json")] authHeader) ∧
    (∀ k v, (k, v) ∈ spread [("Content-Type", "application/json")] authHeader →
      (k, v) = ("Content-Type", "application/json") ∨ (k, v) ∈ authHeader) ∧
    ((spread [("Content-Type", "application/json")] authHeader).map Prod.fst).Nodup
  refine ⟨?_, ?_, ?_, ?_⟩
  · exact mem_spread_of_mem_target authHeader _ _ _ (by simp) hauth
  · intro k v h
    exact mem_spread_of_mem_source authHeader _ k v hkeys h
  · intro k v h
    rcases mem_of_mem_spread authHeader _ k v h with h | h
    · left; simpa using h
    · right; exact h
  · exact nodup_keys_spread authHeader _ (by simp)

/-- Witness for C7: the sample authorization header. -/
theorem outbound_headers_are_spread_witness :
    ("Content-Type", "application/json") ∈
      (outboundRequest sampleEnv sampleAuth sampleBody).headers ∧
    ("Authorization", "Bearer t0k3n") ∈
      (outboundRequest sampleEnv sampleAuth sampleBody).headers :=
  have h := outbound_headers_are_spread sampleEnv sampleAuth sampleBody (by decide) (by decide)
  ⟨h.1, h.2.1 _ _ (by decide)⟩

/-- C8: when the credential check of `withAuth` rejects the request, `POST` makes no fetch
call and answers with the unauthorized response of the check; and whenever `POST` makes a
fetch call, the check accepted the request and the call is one the wrapped handler made. -/
theorem unauthenticated_never_reaches_backend (env : ProcessEnv)
    (fetch : OutboundRequest → Completion BackendResponse)
    (authenticate : Request → Except ClientResponse (List (String × String)))
    (request : Request) (unauthorized : ClientResponse)
    (hrej : authenticate request = .error unauthorized) :
    (POST env fetch authenticate request).fetches = [] ∧
    (POST env fetch authenticate request).completion = .ok unauthorized ∧
    (∀ other : Request, (POST env fetch authenticate other).fetches ≠ [] →
      ∃ authHeader, authenticate other = .ok authHeader ∧
        (POST env fetch authenticate other).fetches
          = (handler env fetch other authHeader).fetches) := by
  refine ⟨?_, ?_, ?_⟩
  · simp [POST, withAuth, hrej]
  · simp [POST, withAuth, hrej]
  · intro other hne
    cases ha : authenticate other with
    | error u => simp [POST, withAuth, ha] at hne
    | ok authHeader => exact ⟨authHeader, rfl, by simp [POST, withAuth, ha]⟩

/-- Witness for C8: a credential check that rejects everything with a 401. -/
theorem unauthenticated_never_reaches_backend_witness :
    (POST sampleEnv (respondWith ⟨200, .ok .null⟩)
      (rejectAll ⟨401, .obj [("error", .str "Unauthorized")]⟩) sampleRequest).fetches = [] ∧
    (POST sampleEnv (respondWith ⟨200, .ok .null⟩)
      (rejectAll ⟨401, .obj [("error", .str "Unauthorized")]⟩) sampleRequest).completion
      = .ok ⟨401, .obj [("error", .str "Unauthorized")]⟩ :=
  have h := unauthenticated_never_reaches_backend sampleEnv (respondWith ⟨200, .ok .null⟩)
    (rejectAll ⟨401, .obj [("error", .str "Unauthorized")]⟩) sampleRequest
    ⟨401, .obj [("error", .str "Unauthorized")]⟩ rfl
  ⟨h.1, h.2.1⟩

/-- C9: `appServerUrl` is `INTERNAL_APP_SERVER_URL` when that is defined and non-empty and
`NEXT_PUBLIC_APP_SERVER_URL` otherwise; every fetch call of every invocation goes to the
address this one value gives. -/
theorem appServerUrl_first_nonempty (env : ProcessEnv) :
    (∀ s, env.INTERNAL_APP_SERVER_URL = some s → s ≠ "" → appServerUrl env = some s) ∧
    (env.INTERNAL_APP_SERVER_URL = none ∨ env.INTERNAL_APP_SERVER_URL = some "" →
      appServerUrl env = env.NEXT_PUBLIC_APP_SERVER_URL) ∧
    (∀ (fetch : OutboundRequest → Completion BackendResponse) (request : Request)
      (authHeader : List (String × String)) (out : OutboundRequest),
      out ∈ (handler env fetch request authHeader).fetches →
      out.url = templateText (appServerUrl env) ++ "/integrations/connect/oauth") := by
  refine ⟨?_, ?_, ?_⟩
  · intro s hs hne
    simp [appServerUrl, hs, hne]
  · intro h
    rcases h with h | h <;> simp [appServerUrl, h]
  · intro fetch request authHeader out hout
    cases hb : request.json with
    | error e =>
      have : (handler env fetch request authHeader).fetches = [] := by
        rw [handler_fetches]; unfold tryBlock; rw [hb]
      rw [this] at hout; simp at hout
    | ok b =>
      rw [fetches_of_parsed env fetch request authHeader b hb] at hout
      simp only [List.mem_singleton] at hout
      subst hout
      rfl

/-- Witness for C9: with both values set the internal one wins, and with the internal one
empty the public one is taken. -/
theorem appServerUrl_first_nonempty_witness :
    appServerUrl sampleEnv = some "http://server:5000" ∧
    appServerUrl ⟨some "", some "https://public.example"⟩ = some "https://public.example" :=
  ⟨(appServerUrl_first_nonempty sampleEnv).1 "http://server:5000" rfl (by decide),
   (appServerUrl_first_nonempty ⟨some "", some "https://public.example"⟩).2.1 (Or.inr rfl)⟩

/-- C10: when the inbound body does not parse and `request.json()` rejects with message `m`,
the handler makes no fetch call and answers 500 with `{error: m}`; the status is not in
400-499. -/
theorem malformed_inbound_body_becomes_500 (env : ProcessEnv)
    (fetch : OutboundRequest → Completion BackendResponse) (request : Request)
    (authHeader : List (String × String)) (m : String)
    (hb : request.json = .error ⟨m⟩) :
    (handler env fetch request authHeader).fetches = [] ∧
    (handler env fetch request authHeader).completion
      = .ok { status := 500, body := .obj [("error", .str m)] } ∧
    (∀ response, (handler env fetch request authHeader).completion = .ok response →
      ¬ (400 ≤ response.status ∧ response.status ≤ 499)) := by
  have hc : (handler env fetch request authHeader).completion
      = .ok { status := 500, body := .obj [("error", .str m)] } := by
    unfold handler tryBlock; rw [hb]; rfl
  refine ⟨?_, hc, ?_⟩
  · rw [handler_fetches]; unfold tryBlock; rw [hb]
  · intro response hr
    rw [hc] at hr
    injection hr with hr
    subst hr
    simp

/-- Witness for C10: the inbound body is cut short. -/
theorem malformed_inbound_body_becomes_500_witness :
    (handler sampleEnv (respondWith ⟨200, .ok .null⟩) malformedRequest sampleAuth).fetches = [] ∧
    (handler sampleEnv (respondWith ⟨200, .ok .null⟩) malformedRequest sampleAuth).completion
      = .ok { status := 500, body := .obj [("error", .str "Unexpected end of JSON input")] } :=
  have h := malformed_inbound_body_becomes_500 sampleEnv (respondWith ⟨200, .ok .null⟩)
    malformedRequest sampleAuth "Unexpected end of JSON input" rfl
  ⟨h.1, h.2.1⟩

end OAuthRoute
